import Mathlib

/-!
# Verification of the change-propagation rule compiler and Kafka factory

A shallow embedding of `lib/rule.js` (match-tree compiler, retry-condition
compiler, `Rule` construction and dispatch) and `lib/kafka_factory.js`
(DC-name selection, `GuaranteedProducer.produce`) of the
change-propagation repository, together with theorems settling the
specification's claims about them.

JavaScript values are modelled by the inductive `JValue` (schemaless JSON
plus `undefined`); machine floats only ever hold configuration integers
and HTTP status codes here, so numbers are modelled as `Int`.  Property
access `v['k']` on `null`/`undefined` throws a `TypeError`; throwing
computations are modelled in `Except Unit`.
-/

namespace ChangeProp

/-- A JavaScript runtime value: JSON values plus `undefined`. -/
inductive JValue where
  | jUndefined : JValue
  | jNull : JValue
  | jBool (b : Bool) : JValue
  | jNum (n : Int) : JValue
  | jStr (s : String) : JValue
  | jArr (xs : List JValue) : JValue
  | jObj (fields : List (String × JValue)) : JValue

/-- A throwing JavaScript computation (`Unit` stands for a thrown
`TypeError`). -/
abbrev JSResult (α : Type) : Type := Except Unit α

/-- Decimal digit character for `d < 10` (written out so that facts about
it are provable by `decide`). -/
def digitChar (d : Nat) : Char :=
  if d = 0 then '0' else if d = 1 then '1' else if d = 2 then '2'
  else if d = 3 then '3' else if d = 4 then '4' else if d = 5 then '5'
  else if d = 6 then '6' else if d = 7 then '7' else if d = 8 then '8'
  else '9'

/-- Fuel-indexed decimal-digit expansion (one unit of fuel per digit;
`n + 1` is always sufficient). -/
def natCharsF : Nat → Nat → List Char
  | 0, _ => []
  | f + 1, n =>
      if n < 10 then [digitChar n]
      else natCharsF f (n / 10) ++ [digitChar (n % 10)]

/-- Decimal digits of a natural number, most significant first: the model
of `Number.prototype.toString` for non-negative integers. -/
def natChars (n : Nat) : List Char := natCharsF (n + 1) n

/-- Decimal rendering of an integer, the model of JavaScript number →
string coercion for integral values. -/
def intToString (n : Int) : String :=
  if n < 0 then "-" ++ String.mk (natChars (-n).toNat)
  else String.mk (natChars n.toNat)

/-- Numeric value of a digit character. -/
def charDigitVal (c : Char) : Nat := c.toNat - 48

/-- Value of a decimal digit string (the number that a digit literal
interpolated into generated code denotes). -/
def digitsVal (cs : List Char) : Nat :=
  cs.foldl (fun a c => 10 * a + charDigitVal c) 0

mutual
/-- JavaScript string coercion `String(v)`, as applied by
`RegExp.prototype.test` to its argument. -/
def toJsString : JValue → String
  | .jUndefined => "undefined"
  | .jNull => "null"
  | .jBool b => if b then "true" else "false"
  | .jNum n => intToString n
  | .jStr s => s
  | .jArr xs => String.intercalate "," (toJsStringElems xs)
  | .jObj _ => "[object Object]"
termination_by structural v => v

/-- `Array.prototype.join(',')` renders `null` and `undefined` elements
as the empty string. -/
def toJsStringElems : List JValue → List String
  | [] => []
  | .jUndefined :: rest => "" :: toJsStringElems rest
  | .jNull :: rest => "" :: toJsStringElems rest
  | v :: rest => toJsString v :: toJsStringElems rest
termination_by structural l => l
end

/-- JavaScript truthiness. -/
def jsTruthy : JValue → Bool
  | .jUndefined => false
  | .jNull => false
  | .jBool b => b
  | .jNum n => n != 0
  | .jStr s => s != ""
  | .jArr _ => true
  | .jObj _ => true

/-- A canonical array-index key: all digits with no leading zero (the
keys under which JavaScript stores array elements). -/
def parseIndex (k : String) : Option Nat :=
  if k.data ≠ [] ∧ k.data.all Char.isDigit ∧ (k = "0" ∨ k.data.head? ≠ some '0')
  then some (digitsVal k.data) else none

/-- JavaScript bracket access `v['k']`: throws a `TypeError` on `null` or
`undefined`, yields `undefined` for a missing key, and supports `length`
and index access on arrays and strings.  Object key lookup takes the
first binding (config/event objects have unique keys). -/
def getField (v : JValue) (k : String) : JSResult JValue :=
  match v with
  | .jUndefined => throw ()
  | .jNull => throw ()
  | .jObj fs => pure ((fs.lookup k).getD .jUndefined)
  | .jArr xs =>
      pure (if k = "length" then .jNum xs.length
            else match parseIndex k with
                 | some i => (xs.get? i).getD .jUndefined
                 | none => .jUndefined)
  | .jStr s =>
      pure (if k = "length" then .jNum s.length
            else match parseIndex k with
                 | some i => match s.data.get? i with
                             | some c => .jStr (String.mk [c])
                             | none => .jUndefined
                 | none => .jUndefined)
  | _ => pure .jUndefined

/-- Evaluate the access expression `e['k']` given the (possibly thrown)
value of `e`. -/
def jsAccess (nv : JSResult JValue) (k : String) : JSResult JValue := do
  let v ← nv
  getField v k

/-! ## Regex-literal strings

`_compileMatch` treats a string leaf matching `/^\/.+\/[gimuy]{0,5}$/` as
a regex literal and hands it to `_compileNamedRegex`.  The actual
matching engine (`RegExp`) is a platform collaborator; it is abstracted
as a function from the normalized regex literal and the (string-coerced)
subject to `exec`'s result: `none` for no match, `some entries` for a
match, where `entries[0]` is the full match and `entries[i+1]` the `i`-th
capture group (`none` for an unmatched optional group). -/

/-- The abstract `RegExp` engine: normalized regex literal → subject →
`exec` result. -/
abbrev RegexEngine : Type := String → String → Option (List (Option String))

/-- One of the five regex flag characters `gimuy`. -/
def isFlagChar (c : Char) : Bool :=
  c = 'g' || c = 'i' || c = 'm' || c = 'u' || c = 'y'

/-- Model of the test `/^\/.+\/[gimuy]{0,5}$/.test(s)`: a leading slash,
a nonempty middle free of line terminators (`.` does not match them), a
closing slash, and at most five flag characters.  Greedy `.+` forces the
closing slash to be the last slash of the string. -/
def isRegexString (s : String) : Bool :=
  match s.data with
  | '/' :: rest =>
      let rrev := rest.reverse
      let flagsRev := rrev.takeWhile (· ≠ '/')
      match rrev.dropWhile (· ≠ '/') with
      | '/' :: midRev =>
          decide (midRev ≠ []) && decide (flagsRev.length ≤ 5) &&
          flagsRev.all isFlagChar &&
          midRev.all (fun c => c ≠ '\n' && c ≠ '\r')
      | _ => false
  | _ => false

/-- A word character, as matched by `\w`. -/
def isWordChar (c : Char) : Bool := c.isAlphanum || c = '_'

/-- Model of `obj.replace(/\(\?<(\w+)>/g, ...)`: scans the regex literal
left to right, collecting the names of named capture groups and
replacing each `(?<name>` opener by a bare `(`.  Structured as
fuel-indexed recursion (the fuel, one unit per consumed character, is
always sufficient at `length + 1`). -/
def scanNamedF : Nat → List Char → List String × List Char
  | 0, cs => ([], cs)
  | _ + 1, [] => ([], [])
  | f + 1, '(' :: '?' :: '<' :: rest =>
      let w := rest.takeWhile isWordChar
      if w.length > 0 then
        match rest.dropWhile isWordChar with
        | '>' :: r3 =>
            let p := scanNamedF f r3
            (String.mk w :: p.1, '(' :: p.2)
        | _ =>
            let p := scanNamedF f ('?' :: '<' :: rest)
            (p.1, '(' :: p.2)
      else
        let p := scanNamedF f ('?' :: '<' :: rest)
        (p.1, '(' :: p.2)
  | f + 1, c :: cs =>
      let p := scanNamedF f cs
      (p.1, c :: p.2)

/-- Capture-group names of a regex literal, in order of appearance. -/
def captureNames (s : String) : List String :=
  (scanNamedF (s.data.length + 1) s.data).1

/-- The regex literal with every `(?<name>` opener replaced by `(`
(`normalRegex` in the source). -/
def normalizeRegex (s : String) : String :=
  String.mk (scanNamedF (s.data.length + 1) s.data).2

/-- Model of the capture-group count obtained in the source by
`(new RegExp(normalRegex + '|')).exec('').length - 1`: the number of
`(` occurrences that are not escaped, not inside a character class and
not followed by `?`. -/
def countGroupsAux : List Char → Bool → Nat
  | [], _ => 0
  | '\\' :: _ :: rest, inClass => countGroupsAux rest inClass
  | '\\' :: [], _ => 0
  | '[' :: rest, false => countGroupsAux rest true
  | ']' :: rest, true => countGroupsAux rest false
  | '(' :: rest, false =>
      (if rest.head? = some '?' then 0 else 1) + countGroupsAux rest false
  | _ :: rest, inClass => countGroupsAux rest inClass

/-- Capture-group count of a normalized regex literal. -/
def countGroups (s : String) : Nat := countGroupsAux s.data false

/-- `_compileNamedRegex` throws when named captures are present but do
not account for every capture group of the normalized regex (named and
unnamed capture groups are mixed). -/
def regexMixesCaptures (s : String) : Bool :=
  decide (0 < (captureNames s).length) &&
  decide (countGroups (normalizeRegex s) ≠ (captureNames s).length)

/-! ## Match trees and the compiled predicate

`MTree` is the declarative match tree of a rule option.  `evalMatch`
evaluates, over an event, exactly the boolean expression that
`_compileMatch` compiles from the tree (`&&` is short-circuiting, field
accesses happen at each use site, and accessing a field of a missing
parent throws). -/

/-- A match tree: the recursive declarative pattern of a rule's `match`
stanza.  Strings may be the sentinel `"undefined"`, a `/regex/` literal,
or a plain string constant; objects require all keys to match; arrays
require the target to be an array in which each pattern element finds a
matching member. -/
inductive MTree where
  | mStr (s : String) : MTree
  | mNum (n : Int) : MTree
  | mBool (b : Bool) : MTree
  | mArr (items : List MTree) : MTree
  | mObj (fields : List (String × MTree)) : MTree

/-- `name.find((item) => itemTest)` for a pre-compiled element test:
the first member satisfying it, `undefined` when none does; errors
thrown by the element test propagate. -/
def findMatchWith (p : JValue → JSResult Bool) : List JValue → JSResult JValue
  | [] => pure .jUndefined
  | x :: xs => do
      let b ← p x
      if b then pure x else findMatchWith p xs

mutual
/-- The compiled predicate of a match tree, evaluated against the value
of its access expression (`nv`).  Mirrors the code that `_compileMatch`
generates: the sentinel `"undefined"` compiles to `name === undefined`,
a regex literal to `regex.test(name)`, a plain string or scalar to
strict equality, an array to `Array.isArray(name) && ...`, and an
object to the `&&`-conjunction over its keys, each key accessed as
`name['key']`. -/
def evalMatch (eng : RegexEngine) : MTree → JSResult JValue → JSResult Bool
  | .mStr s, nv =>
      if s = "undefined" then do
        let v ← nv
        pure (match v with | .jUndefined => true | _ => false)
      else if isRegexString s then do
        let v ← nv
        pure (eng (normalizeRegex s) (toJsString v)).isSome
      else do
        let v ← nv
        pure (match v with | .jStr t => decide (t = s) | _ => false)
  | .mNum n, nv => do
      let v ← nv
      pure (match v with | .jNum m => decide (m = n) | _ => false)
  | .mBool b, nv => do
      let v ← nv
      pure (match v with | .jBool c => decide (c = b) | _ => false)
  | .mArr items, nv => do
      let v ← nv
      match v with
      | .jArr xs => evalArrayItems eng items xs
      | _ => pure false
  | .mObj fields, nv => evalFields eng fields nv
termination_by structural t _ => t

/-- Conjunction `name.find(...) && name.find(...) && ...` over the
pattern elements of an array match: each element must *find* a member of
the target array, and — faithfully to the generated code — the found
member itself must be truthy for the conjunction to proceed.
An empty pattern array compiles to the bare `Array.isArray` test. -/
def evalArrayItems (eng : RegexEngine) : List MTree → List JValue → JSResult Bool
  | [], _ => pure true
  | it :: its, xs => do
      let found ← findMatchWith (fun x => evalMatch eng it (pure x)) xs
      if jsTruthy found then evalArrayItems eng its xs else pure false
termination_by structural l _ => l

/-- The `&&`-conjunction over an object node's keys, in declaration
order, short-circuiting on the first false conjunct.  (An entirely empty
tree compiles to an empty expression whose predicate yields `undefined`,
and an empty object nested beside other keys is a generated-code syntax
error; no claim involves empty objects, which are modelled as a vacuous
`true`.) -/
def evalFields (eng : RegexEngine) : List (String × MTree) → JSResult JValue → JSResult Bool
  | [], _ => pure true
  | (k, t) :: rest, nv => do
      let b ← evalMatch eng t (jsAccess nv k)
      if b then evalFields eng rest nv else pure false
termination_by structural l _ => l
end

/-! ## The compiled binder (`expand`)

`_compileMatch` accumulates, alongside the predicate, a `result` object
that `_getMatchObjCode` turns into the binder expression: plain strings
and scalars contribute their literal value, a regex without named
captures contributes `regex.exec(name)`, a regex with named captures
contributes an IIFE reading `execRes[i+1]` for each capture (throwing
when `exec` returned `null`), an object contributes the sub-object of
its keys' contributions, and the sentinel `"undefined"` and array
patterns contribute nothing. -/

/-- `exec` result as a JavaScript value: `null` when there was no match,
otherwise the match array (unmatched groups are `undefined`). -/
def execToJValue : Option (List (Option String)) → JValue
  | none => .jNull
  | some entries =>
      .jArr (entries.map (fun e => match e with
        | some s => .jStr s
        | none => .jUndefined))

/-- An entry of the exec array, `undefined` when absent or unmatched. -/
def execEntry (entries : List (Option String)) (i : Nat) : JValue :=
  match entries.get? i with
  | some (some s) => .jStr s
  | some none => .jUndefined
  | none => .jUndefined

mutual
/-- The binding contribution of one match-tree node: `none` when the
node writes nothing into `result` (the `"undefined"` sentinel and array
patterns), otherwise the throwing computation of the written value. -/
def bindContrib (eng : RegexEngine) : MTree → JSResult JValue → Option (JSResult JValue)
  | .mStr s, nv =>
      if s = "undefined" then none
      else if isRegexString s then
        if (captureNames s).isEmpty then
          some (do
            let v ← nv
            pure (execToJValue (eng (normalizeRegex s) (toJsString v))))
        else
          some (do
            let v ← nv
            match eng (normalizeRegex s) (toJsString v) with
            | none => throw ()
            | some entries =>
                pure (.jObj ((captureNames s).enum.map
                  (fun p => (p.2, execEntry entries (p.1 + 1))))))
      else some (pure (.jStr s))
  | .mNum n, _ => some (pure (.jNum n))
  | .mBool b, _ => some (pure (.jBool b))
  | .mArr _, _ => none
  | .mObj fields, nv => some (do
      let fs ← bindFields eng fields nv
      pure (.jObj fs))
termination_by structural t _ => t

/-- The sub-object collected for an object node's keys, evaluated in
declaration order with errors propagating. -/
def bindFields (eng : RegexEngine) : List (String × MTree) → JSResult JValue → JSResult (List (String × JValue))
  | [], _ => pure []
  | (k, t) :: rest, nv =>
      match bindContrib eng t (jsAccess nv k) with
      | none => bindFields eng rest nv
      | some e => do
          let v ← e
          let vs ← bindFields eng rest nv
          pure ((k, v) :: vs)
termination_by structural l _ => l
end

/-- The compiled binder (`Rule.expand` for one option): an object node
at the root yields the collected sub-object; any other root node is
stored under the key `"undefined"` (the source indexes `result` with an
undefined `fieldName` there); a root that contributes nothing yields an
empty object. -/
def evalBinder (eng : RegexEngine) (t : MTree) (nv : JSResult JValue) : JSResult JValue :=
  match t with
  | .mObj fields => do
      let fs ← bindFields eng fields nv
      pure (.jObj fs)
  | _ =>
      match bindContrib eng t nv with
      | none => pure (.jObj [])
      | some e => do
          let v ← e
          pure (.jObj [("undefined", v)])

/-! ## The retry-condition compiler (`_compileErrorCheckCondition`)

A `retry_on` / `ignore` stanza maps result-field names to an option or
an array of options.  For the `status` field, an all-digit option
compiles to strict numeric equality and a digits-and-`x` option to the
anchored regex in which each `x` is replaced by `\d`; anything else
throws at compile time.  Any other field compiles to canonical-JSON
equality via `json-stable-stringify`.  Across fields, conditions are
joined with `&&`; within one field given as an array, with `||`. -/

/-- Escape a string for a JSON string literal (quote and backslash; the
configuration strings involved contain no control characters). -/
def jsonEscape (s : String) : String :=
  String.mk (s.data.foldr
    (fun c acc => if c = '"' ∨ c = '\\' then '\\' :: c :: acc else c :: acc) [])

mutual
/-- Model of `json-stable-stringify`: JSON serialization with object
keys sorted, `undefined` dropped from objects and rendered as `null`
inside arrays; `none` when the whole value is `undefined` (in which case
the generated comparison against a string literal is false). -/
def jsonStringify : JValue → Option String
  | .jUndefined => none
  | .jNull => some "null"
  | .jBool b => some (if b then "true" else "false")
  | .jNum n => some (intToString n)
  | .jStr s => some ("\"" ++ jsonEscape s ++ "\"")
  | .jArr xs => some ("[" ++ String.intercalate "," (jsonStringifyArr xs) ++ "]")
  | .jObj fs =>
      some ("\x7b" ++ String.intercalate ","
        (((jsonStringifyObj fs).filterMap
            (fun p => p.2.map (fun sv => "\"" ++ jsonEscape p.1 ++ "\":" ++ sv))).mergeSort
          (fun a b => a ≤ b)) ++ "\x7d")
termination_by structural v => v

/-- Array elements, `undefined` rendered as `null`. -/
def jsonStringifyArr : List JValue → List String
  | [] => []
  | v :: vs => ((jsonStringify v).getD "null") :: jsonStringifyArr vs
termination_by structural l => l

/-- Object fields paired with their serialized values. -/
def jsonStringifyObj : List (String × JValue) → List (String × Option String)
  | [] => []
  | (k, v) :: rest => (k, jsonStringify v) :: jsonStringifyObj rest
termination_by structural l => l
end

/-- The anchored test `/^pat$/` where `pat` is the option with each `x`
replaced by `\d`: the subject must have the pattern's length, with a
digit wherever the option has `x` and the literal digit elsewhere. -/
def xPatternTest : List Char → List Char → Bool
  | [], [] => true
  | p :: ps, c :: cs =>
      (if p = 'x' then c.isDigit else decide (c = p)) && xPatternTest ps cs
  | _, _ => false

/-- `createCondition` of `_compileErrorCheckCondition`: compiles one
(field, option) pair to a predicate over the result field's value, or
throws for an invalid `status` option.  Interpolated digit literals are
read as decimal. -/
def createCondition (field : String) (opt : JValue) : Except String (JValue → Bool) :=
  if field = "status" then
    let s := toJsString opt
    if s.data ≠ [] ∧ s.data.all Char.isDigit then
      .ok (fun v => match v with
        | .jNum m => decide (m = (digitsVal s.data : Int))
        | _ => false)
    else if s.data ≠ [] ∧ s.data.all (fun c => c.isDigit || c = 'x') then
      .ok (fun v => xPatternTest s.data (toJsString v).data)
    else .error ("Invalid retry_on condition " ++ s)
  else
    .ok (fun v => match jsonStringify v, jsonStringify opt with
      | some a, some b => decide (a = b)
      | _, _ => false)

/-- The right-hand side of one stanza field: a single option or an array
of options (`OR` within the array). -/
inductive RVal where
  | single (o : JValue) : RVal
  | arr (os : List JValue) : RVal

/-- A `retry_on` / `ignore` stanza. -/
abbrev RetryStanza : Type := List (String × RVal)

/-- An HTTP result, as inspected by the compiled classifier (an object,
so field access never throws). -/
abbrev RResult : Type := List (String × JValue)

/-- `res["field"]` on a result object. -/
def resLookup (res : RResult) (f : String) : JValue :=
  (res.lookup f).getD .jUndefined

/-- Compile one stanza field: an array of options becomes the
`||`-disjunction of the per-option conditions (an empty array would
generate the ill-formed expression `()`, a compile-time syntax error). -/
def compileStanzaField (p : String × RVal) : Except String (RResult → Bool) :=
  match p.2 with
  | .single o => do
      let c ← createCondition p.1 o
      .ok (fun res => c (resLookup res p.1))
  | .arr os =>
      if os.isEmpty then .error "SyntaxError: empty disjunction ()"
      else do
        let cs ← os.mapM (createCondition p.1)
        .ok (fun res => cs.any (fun c => c (resLookup res p.1)))

/-- `_compileErrorCheckCondition`: the `&&`-conjunction over the
stanza's fields (an empty stanza would generate `return ();`, a
compile-time syntax error). -/
def compileErrorCheckCondition (defn : RetryStanza) : Except String (RResult → Bool) :=
  if defn.isEmpty then .error "SyntaxError: return ()"
  else do
    let cs ← defn.mapM compileStanzaField
    .ok (fun res => cs.all (fun c => c res))

/-! ## Compile-time checking of a match tree

While `_compileMatch` assembles the code strings (depth-first, keys in
declaration order), `_compileNamedRegex` may throw on a regex literal
that mixes named and unnamed capture groups; that throw propagates out
of `Rule`'s constructor (it is raised before the `try` that guards
`new Function`).  `compileMatchCheck` performs exactly that traversal's
throwing behaviour. -/

mutual
/-- Whether a match tree contains a regex literal mixing named and
unnamed capture groups. -/
def hasMixing : MTree → Bool
  | .mStr s => isRegexString s && regexMixesCaptures s
  | .mNum _ => false
  | .mBool _ => false
  | .mArr items => hasMixingList items
  | .mObj fields => hasMixingFields fields
termination_by structural t => t

/-- `hasMixing` over array-pattern elements. -/
def hasMixingList : List MTree → Bool
  | [] => false
  | t :: ts => hasMixing t || hasMixingList ts
termination_by structural l => l

/-- `hasMixing` over object fields. -/
def hasMixingFields : List (String × MTree) → Bool
  | [] => false
  | (_, t) :: rest => hasMixing t || hasMixingFields rest
termination_by structural l => l
end

mutual
/-- The compile-time traversal of `_compileMatch`: throws (with
`_compileNamedRegex`'s error) at the first regex literal that mixes
named and unnamed capture groups. -/
def compileMatchCheck : MTree → Except String Unit
  | .mStr s =>
      if s = "undefined" then .ok ()
      else if isRegexString s then
        if regexMixesCaptures s then
          .error ("Invalid match regex. Mixing named and unnamed capture groups are not supported. Regex: " ++ s)
        else .ok ()
      else .ok ()
  | .mNum _ => .ok ()
  | .mBool _ => .ok ()
  | .mArr items => compileMatchCheckList items
  | .mObj fields => compileMatchCheckFields fields
termination_by structural t => t

/-- Compile-time traversal over array-pattern elements. -/
def compileMatchCheckList : List MTree → Except String Unit
  | [] => .ok ()
  | t :: ts => do
      compileMatchCheck t
      compileMatchCheckList ts
termination_by structural l => l

/-- Compile-time traversal over object fields. -/
def compileMatchCheckFields : List (String × MTree) → Except String Unit
  | [] => .ok ()
  | (_, t) :: rest => do
      compileMatchCheck t
      compileMatchCheckFields rest
termination_by structural l => l
end

/-! ## `Rule` construction and dispatch -/

/-- One `cases` entry (or the rule body itself when `cases` is absent):
the declarative fields a rule option is compiled from.  `exec` is the
raw specification value (an object, an array of objects, or absent). -/
structure CaseSpec where
  match_ : Option MTree
  match_not : Option MTree
  exec : Option JValue

/-- A rule specification, as handed to `new Rule(name, spec)`.  For the
`||`-defaulted fields, `none` models an absent (or JavaScript-falsy
non-numeric) value and `some 0` an explicit zero. -/
structure RuleSpec where
  topic : Option String
  retry_on : Option RetryStanza
  ignore : Option RetryStanza
  retry_delay : Option Nat
  retry_limit : Option Nat
  retry_factor : Option Nat
  match_ : Option MTree
  match_not : Option MTree
  exec : Option JValue
  cases : Option (List CaseSpec)
  decode_results : Bool

/-- `x || d` for a configuration number: `0` is falsy and falls back to
the default. -/
def jsOrNum (x : Option Nat) (d : Nat) : Nat :=
  match x with
  | some n => if n = 0 then d else n
  | none => d

/-- The default `retry_on` stanza `{status: ['50x']}`. -/
def defaultRetryOn : RetryStanza := [("status", .arr [.jStr "50x"])]

/-- The default `ignore` stanza `{status: [412]}`. -/
def defaultIgnore : RetryStanza := [("status", .arr [.jNum 412])]

/-- A compiled rule option: the (optional) match trees whose compiled
predicate/binder drive `test`/`expand`, the processed exec templates,
and whether the option is a no-op. -/
structure ROption where
  match_ : Option MTree
  match_not : Option MTree
  exec : Option (List JValue)

/-- A constructed `Rule` (data part: the compiled predicate closures are
recovered from the stored trees by `evalMatch`/`evalBinder`). -/
structure Rule where
  name : String
  topic : String
  retry_on : RetryStanza
  ignore : RetryStanza
  retry_delay : Nat
  retry_limit : Nat
  retry_factor : Nat
  options : List ROption
  noop : Bool

/-- `_processMatch`: nothing to compile when no match is given,
otherwise run the compile-time traversal (whose throw propagates). -/
def processMatch (m : Option MTree) : Except String (Option MTree) :=
  match m with
  | none => .ok none
  | some t => do
      compileMatchCheck t
      .ok (some t)

/-- Template-construction defaults applied to one exec request:
`method: 'get'`, `headers: {}`, `followRedirect: false`, `retries: 0`,
and raw encoding unless `decode_results`. -/
def applyTemplateDefaults (decodeResults : Bool) (fs : List (String × JValue)) : JValue :=
  let fs := if (fs.lookup "method").isSome then fs else fs ++ [("method", .jStr "get")]
  let fs := if (fs.lookup "headers").isSome then fs else fs ++ [("headers", .jObj [])]
  let fs := fs ++ [("followRedirect", .jBool false), ("retries", .jNum 0)]
  .jObj (if decodeResults then fs else fs ++ [("encoding", .jNull)])

/-- `_processExec`: absent (or falsy) exec marks a no-op option;
otherwise a non-array exec is wrapped into a one-element array, and each
request must be an object with a truthy `uri`. -/
def processExec (name : String) (decodeResults : Bool) (exec : Option JValue) :
    Except String (Option (List JValue)) :=
  match exec with
  | none => .ok none
  | some v =>
      if jsTruthy v = false then .ok none
      else
        let reqs := match v with
          | .jArr xs => xs
          | x => [x]
        do
          let ts ← reqs.mapM (fun req =>
            match req with
            | .jObj fs =>
                if jsTruthy ((fs.lookup "uri").getD .jUndefined) then
                  .ok (applyTemplateDefaults decodeResults fs)
                else .error ("In rule " ++ name ++ ", request must be an object and must have the uri property")
            | _ => .error ("In rule " ++ name ++ ", request must be an object and must have the uri property"))
          .ok (some ts)

/-- Compile one option of the rule. -/
def processOption (name : String) (decodeResults : Bool) (c : CaseSpec) :
    Except String ROption := do
  let m ← processMatch c.match_
  let mn ← processMatch c.match_not
  let ex ← processExec name decodeResults c.exec
  .ok ⟨m, mn, ex⟩

/-- The effective option specifications: `spec.cases || [spec]`. -/
def effectiveCases (spec : RuleSpec) : List CaseSpec :=
  match spec.cases with
  | some cs => cs
  | none => [⟨spec.match_, spec.match_not, spec.exec⟩]

/-- The `Rule` constructor: validates the topic, applies the `retry_on`
/ `ignore` / `retry_delay` / `retry_limit` / `retry_factor` defaults,
compiles both error-check classifiers (whose compile-time throws
propagate), and compiles every option. -/
def mkRule (name : String) (spec : RuleSpec) : Except String Rule :=
  match spec.topic with
  | none => .error ("No topic specified for rule " ++ name)
  | some t =>
      if t = "" then .error ("No topic specified for rule " ++ name)
      else
        match compileErrorCheckCondition ((spec.retry_on).getD defaultRetryOn) with
        | .error e => .error e
        | .ok _ =>
            match compileErrorCheckCondition ((spec.ignore).getD defaultIgnore) with
            | .error e => .error e
            | .ok _ =>
                match (effectiveCases spec).mapM (processOption name spec.decode_results) with
                | .error e => .error e
                | .ok opts =>
                    .ok { name := name, topic := t,
                          retry_on := (spec.retry_on).getD defaultRetryOn,
                          ignore := (spec.ignore).getD defaultIgnore,
                          retry_delay := jsOrNum spec.retry_delay 60000,
                          retry_limit := jsOrNum spec.retry_limit 2,
                          retry_factor := jsOrNum spec.retry_factor 6,
                          options := opts,
                          noop := opts.any (fun o => o.exec.isNone) }

/-- The per-option predicate `matcher.test || (() => true)`. -/
def evalOptMatch (eng : RegexEngine) (o : ROption) (ev : JValue) : JSResult Bool :=
  match o.match_ with
  | none => pure true
  | some t => evalMatch eng t (pure ev)

/-- The per-option anti-predicate, defaulting to `() => false`. -/
def evalOptNot (eng : RegexEngine) (o : ROption) (ev : JValue) : JSResult Bool :=
  match o.match_not with
  | none => pure false
  | some t => evalMatch eng t (pure ev)

/-- `Array.prototype.findIndex` over the options with the predicate
`option.match(message) && !option.match_not(message)`: the counter `i`
is the index of the head of the remaining list. -/
def ruleTestAux (eng : RegexEngine) (ev : JValue) : List ROption → Nat → JSResult Int
  | [], _ => pure (-1)
  | o :: os, i => do
      let m ← evalOptMatch eng o ev
      if m then do
        let mn ← evalOptNot eng o ev
        if mn then ruleTestAux eng ev os (i + 1) else pure (Int.ofNat i)
      else ruleTestAux eng ev os (i + 1)

/-- `Rule.test(message)`: the index of the first option whose `match`
holds and whose `match_not` does not, `-1` when none does. -/
def ruleTest (eng : RegexEngine) (r : Rule) (ev : JValue) : JSResult Int :=
  ruleTestAux eng ev r.options 0

/-! ## `KafkaFactory` DC names and `GuaranteedProducer.produce` -/

/-- `a || b` for an optional string configuration value: `none` models
an absent value and the empty string is falsy. -/
def jsOrStr (a : Option String) (b : String) : String :=
  match a with
  | some s => if s = "" then b else s
  | none => b

/-- The DC-name slice of the Kafka configuration. -/
structure KafkaConf where
  dc_name : Option String
  consume_dc : Option String
  produce_dc : Option String

/-- `get consumeDC()`: `dc_name || consume_dc || 'datacenter1'`. -/
def consumeDC (c : KafkaConf) : String :=
  jsOrStr c.dc_name (jsOrStr c.consume_dc "datacenter1")

/-- `get produceDC()`: `dc_name || produce_dc || 'datacenter1'`. -/
def produceDC (c : KafkaConf) : String :=
  jsOrStr c.dc_name (jsOrStr c.produce_dc "datacenter1")

/-- The guaranteed producer's pending map `"<topic>:<key>" → resolver`
(resolvers identified by a number). -/
abbrev PendingMap : Type := String → Option Nat

/-- Insert a resolver under a report key. -/
def pmInsert (m : PendingMap) (k : String) (r : Nat) : PendingMap :=
  fun k' => if k' = k then some r else m k'

/-- `delete this._pending[reportKey]`. -/
def pmErase (m : PendingMap) (k : String) : PendingMap :=
  fun k' => if k' = k then none else m k'

/-- The behaviour of the underlying `super.produce` call: it returns a
value or throws. -/
inductive SuperResult where
  | returns (v : JValue) : SuperResult
  | throws : SuperResult

/-- The observable outcome of one `GuaranteedProducer.produce` call. -/
inductive ProduceOutcome where
  | rejectedNoKey : ProduceOutcome
  | rejectedDuplicate (reportKey : String) : ProduceOutcome
  | awaitingReport (reportKey : String) : ProduceOutcome
  | rejectedFailure (reportKey : String) : ProduceOutcome

/-- The state after one `produce` call: the pending map once the call's
`process.nextTick` callbacks have run, the settled-or-pending outcome of
the returned promise, and whether `super.produce` was invoked. -/
structure ProduceStep where
  pending : PendingMap
  outcome : ProduceOutcome
  superCalled : Bool

/-- `GuaranteedProducer.produce(topic, partition, message, key)`: an
empty key rejects before touching anything; a key already in flight
rejects with the duplicate-key error, leaving the existing entry alone;
otherwise the resolver is registered and `super.produce` is called — a
synchronous throw or any result other than `true` deletes the fresh
entry again and rejects. -/
def producerProduce (pending : PendingMap) (resolver : Nat)
    (topic key : String) (superRes : SuperResult) : ProduceStep :=
  if key = "" then ⟨pending, .rejectedNoKey, false⟩
  else
    let reportKey := topic ++ ":" ++ key
    if (pending reportKey).isSome then ⟨pending, .rejectedDuplicate reportKey, false⟩
    else
      let p1 := pmInsert pending reportKey resolver
      match superRes with
      | .returns (.jBool true) => ⟨p1, .awaitingReport reportKey, true⟩
      | .returns _ => ⟨pmErase p1 reportKey, .rejectedFailure reportKey, true⟩
      | .throws => ⟨pmErase p1 reportKey, .rejectedFailure reportKey, true⟩

/-! ## Theorems settling the specification's claims -/

/-- A degenerate regex engine (matches nothing), used to instantiate the
engine parameter in closed counterexamples that involve no regex node. -/
def noMatchEngine : RegexEngine := fun _ _ => none

/-- C6, counterexample: with `dc_name = "dcA"` and `consume_dc = "dcB"`
both configured, `consumeDC` returns `"dcA"`, not `"dcB"` as the claim
("consume_dc when given, otherwise dc_name") requires: the getter is
`dc_name || consume_dc || 'datacenter1'`, so `dc_name` dominates. -/
theorem c6_counterexample :
    consumeDC ⟨some "dcA", some "dcB", none⟩ = "dcA" ∧ "dcA" ≠ "dcB" :=
  ⟨rfl, by decide⟩

/-- C6, amended: the consume DC name is `dc_name` when given (non-empty),
otherwise `consume_dc` when given, otherwise `"datacenter1"`; the produce
DC name is `dc_name` when given, otherwise `produce_dc`, otherwise
`"datacenter1"` — `dc_name` dominates both getters and the specific
settings are the fallback. -/
theorem c6_amended (c : KafkaConf) (s : String) (hs : s ≠ "") :
    (c.dc_name = some s → consumeDC c = s ∧ produceDC c = s)
    ∧ ((c.dc_name = none ∨ c.dc_name = some "") → c.consume_dc = some s →
        consumeDC c = s)
    ∧ ((c.dc_name = none ∨ c.dc_name = some "") → c.produce_dc = some s →
        produceDC c = s)
    ∧ ((c.dc_name = none ∨ c.dc_name = some "") →
        (c.consume_dc = none ∨ c.consume_dc = some "") →
        consumeDC c = "datacenter1")
    ∧ ((c.dc_name = none ∨ c.dc_name = some "") →
        (c.produce_dc = none ∨ c.produce_dc = some "") →
        produceDC c = "datacenter1") := by
  refine ⟨fun h => ⟨?_, ?_⟩, fun h h' => ?_, fun h h' => ?_,
    fun h h' => ?_, fun h h' => ?_⟩ <;>
    simp only [consumeDC, produceDC, jsOrStr]
  · simp [h, hs]
  · simp [h, hs]
  · rcases h with h | h <;> simp [h, h', hs]
  · rcases h with h | h <;> simp [h, h', hs]
  · rcases h with h | h <;> rcases h' with h' | h' <;> simp [h, h', hs]
  · rcases h with h | h <;> rcases h' with h' | h' <;> simp [h, h', hs]

/-- C6, witness for the amended theorem at a concrete configuration. -/
theorem c6_amended_witness :
    consumeDC ⟨some "eqiad", some "codfw", none⟩ = "eqiad" ∧
    produceDC ⟨some "eqiad", some "codfw", none⟩ = "eqiad" :=
  (c6_amended ⟨some "eqiad", some "codfw", none⟩ "eqiad" (by decide)).1 rfl

/-- C7: `GuaranteedProducer.produce` with an empty key rejects at once,
calling `super.produce` on nothing and leaving the pending map
untouched; with a key already in flight for `"<topic>:<key>"` it rejects
with the duplicate-key error, again without producing, and the existing
entry (indeed the whole map) is left unchanged. -/
theorem c7_produce_rejections (pending : PendingMap) (resolver r0 : Nat)
    (topic key : String) (superRes : SuperResult) :
    (key = "" →
      producerProduce pending resolver topic key superRes =
        ⟨pending, .rejectedNoKey, false⟩)
    ∧ (key ≠ "" → pending (topic ++ ":" ++ key) = some r0 →
        producerProduce pending resolver topic key superRes =
          ⟨pending, .rejectedDuplicate (topic ++ ":" ++ key), false⟩
        ∧ (producerProduce pending resolver topic key superRes).pending
            (topic ++ ":" ++ key) = some r0) := by
  constructor
  · intro h
    simp [producerProduce, h]
  · intro hk hdup
    have h1 : producerProduce pending resolver topic key superRes =
        ⟨pending, .rejectedDuplicate (topic ++ ":" ++ key), false⟩ := by
      simp [producerProduce, hk, hdup]
    exact ⟨h1, by rw [h1]; exact hdup⟩

/-- C7, witness: a concrete duplicate-key rejection. -/
theorem c7_produce_rejections_witness :
    producerProduce (fun k => if k = "t:k" then some 7 else none) 9 "t" "k" .throws =
      ⟨(fun k => if k = "t:k" then some 7 else none), .rejectedDuplicate "t:k", false⟩
    ∧ (producerProduce (fun k => if k = "t:k" then some 7 else none) 9 "t" "k" .throws).pending "t:k" = some 7 :=
  (c7_produce_rejections (fun k => if k = "t:k" then some 7 else none) 9 7 "t" "k"
    .throws).2 (by decide) (by decide)

/-- C10: when the key is fresh and `super.produce` either throws or
returns anything other than `true`, the entry just registered under
`"<topic>:<key>"` is deleted again (before the rejection is delivered in
the same `process.nextTick`), so the call leaves the pending map exactly
as it was. -/
theorem c10_failed_produce_restores_pending (pending : PendingMap)
    (resolver : Nat) (topic key : String) (superRes : SuperResult)
    (hk : key ≠ "") (hfresh : pending (topic ++ ":" ++ key) = none)
    (hfail : superRes = .throws ∨
      ∃ v, superRes = .returns v ∧ v ≠ .jBool true) :
    (producerProduce pending resolver topic key superRes).pending = pending
    ∧ (producerProduce pending resolver topic key superRes).outcome =
        .rejectedFailure (topic ++ ":" ++ key) := by
  have herase : pmErase (pmInsert pending (topic ++ ":" ++ key) resolver)
      (topic ++ ":" ++ key) = pending := by
    funext k'
    by_cases h : k' = topic ++ ":" ++ key
    · simp [pmErase, pmInsert, h, hfresh.symm]
    · simp [pmErase, pmInsert, h]
  rcases hfail with h | ⟨v, hv, hvt⟩
  · subst h
    simp [producerProduce, hk, hfresh, herase]
  · subst hv
    cases v with
    | jBool b =>
        cases b with
        | true => exact absurd rfl hvt
        | false => simp [producerProduce, hk, hfresh, herase]
    | _ => simp [producerProduce, hk, hfresh, herase]

/-- C10, witness: a concrete failed produce over an empty pending map. -/
theorem c10_failed_produce_restores_pending_witness :
    (producerProduce (fun _ => none) 3 "topicA" "key1" .throws).pending =
      (fun _ => none)
    ∧ (producerProduce (fun _ => none) 3 "topicA" "key1" .throws).outcome =
        .rejectedFailure "topicA:key1" :=
  c10_failed_produce_restores_pending (fun _ => none) 3 "topicA" "key1" .throws
    (by decide) rfl (Or.inl rfl)

/-! ### Decimal-representation lemmas (for the status classifier) -/

theorem natCharsF_congr (f f' n : Nat) (h : n < f) (h' : n < f') :
    natCharsF f n = natCharsF f' n := by
  induction f generalizing f' n with
  | zero => omega
  | succ fn ih =>
      cases f' with
      | zero => omega
      | succ fn' =>
          simp only [natCharsF]
          by_cases h10 : n < 10
          · simp [h10]
          · have hlt : n / 10 < n := Nat.div_lt_self (by omega) (by omega)
            simp only [h10, if_false]
            rw [ih fn' (n / 10) (by omega) (by omega)]

/-- The defining unfolding of `natChars`. -/
theorem natChars_eq (n : Nat) :
    natChars n = if n < 10 then [digitChar n]
      else natChars (n / 10) ++ [digitChar (n % 10)] := by
  by_cases h10 : n < 10
  · simp [natChars, natCharsF, h10]
  · have hlt : n / 10 < n := Nat.div_lt_self (by omega) (by omega)
    simp only [h10, if_false]
    show natCharsF (n + 1) n = _
    rw [show natCharsF (n + 1) n = natCharsF n (n / 10) ++ [digitChar (n % 10)] by
      simp [natCharsF, h10]]
    rw [natCharsF_congr n (n / 10 + 1) (n / 10) (by omega) (by omega)]
    rfl

theorem digitChar_isDigit (d : Nat) (h : d < 10) : (digitChar d).isDigit = true := by
  interval_cases d <;> decide

theorem charDigitVal_digitChar (d : Nat) (h : d < 10) :
    charDigitVal (digitChar d) = d := by
  interval_cases d <;> decide

theorem digitChar_eq_iff (d e : Nat) (hd : d < 10) (he : e < 10) :
    (digitChar d = digitChar e) ↔ d = e := by
  interval_cases d <;> interval_cases e <;> simp <;> decide

theorem natChars_ne_nil (n : Nat) : natChars n ≠ [] := by
  rw [natChars_eq]
  by_cases h : n < 10 <;> simp [h]

theorem natChars_digits (n : Nat) : (natChars n).all Char.isDigit = true := by
  induction n using Nat.strong_induction_on with
  | _ n ih =>
      rw [natChars_eq]
      by_cases h : n < 10
      · simp [h, digitChar_isDigit n h]
      · have hlt : n / 10 < n := Nat.div_lt_self (by omega) (by omega)
        simp [h, ih (n / 10) hlt,
          digitChar_isDigit (n % 10) (Nat.mod_lt n (by omega))]

theorem digitsVal_natChars (n : Nat) : digitsVal (natChars n) = n := by
  induction n using Nat.strong_induction_on with
  | _ n ih =>
      rw [natChars_eq]
      by_cases h : n < 10
      · simp [h, digitsVal, charDigitVal_digitChar n h]
      · have hlt : n / 10 < n := Nat.div_lt_self (by omega) (by omega)
        have hmod : charDigitVal (digitChar (n % 10)) = n % 10 :=
          charDigitVal_digitChar _ (Nat.mod_lt n (by omega))
        simp only [h, if_false, digitsVal, List.foldl_append, List.foldl_cons,
          List.foldl_nil]
        have := ih (n / 10) hlt
        simp only [digitsVal] at this
        rw [this, hmod]
        omega

theorem natChars_three (n : Nat) (h1 : 100 ≤ n) (h2 : n ≤ 999) :
    natChars n = [digitChar (n / 100), digitChar (n / 10 % 10), digitChar (n % 10)] := by
  rw [natChars_eq]
  have hn10 : ¬ n < 10 := by omega
  rw [natChars_eq]
  have h10a : ¬ n / 10 < 10 := by omega
  rw [natChars_eq]
  have h100 : n / 10 / 10 < 10 := by omega
  simp only [hn10, if_false, h10a, h100, if_true]
  rw [Nat.div_div_eq_div_mul]
  norm_num

theorem natChars_length_big (n : Nat) (h : 1000 ≤ n) :
    4 ≤ (natChars n).length := by
  have e1 : natChars n = natChars (n / 10) ++ [digitChar (n % 10)] := by
    rw [natChars_eq]; simp only [show ¬ n < 10 by omega, if_false]
  have e2 : natChars (n / 10) = natChars (n / 10 / 10) ++ [digitChar (n / 10 % 10)] := by
    rw [natChars_eq]; simp only [show ¬ n / 10 < 10 by omega, if_false]
  have e3 : natChars (n / 10 / 10) =
      natChars (n / 10 / 10 / 10) ++ [digitChar (n / 10 / 10 % 10)] := by
    rw [natChars_eq]; simp only [show ¬ n / 10 / 10 < 10 by omega, if_false]
  have h4 : (natChars (n / 10 / 10 / 10)).length ≥ 1 := by
    cases hcs : natChars (n / 10 / 10 / 10) with
    | nil => exact absurd hcs (natChars_ne_nil _)
    | cons c cs => simp
  rw [e1, e2, e3]
  simp only [List.length_append, List.length_cons, List.length_nil]
  omega

theorem xPatternTest_length (ps cs : List Char) (h : xPatternTest ps cs = true) :
    ps.length = cs.length := by
  induction ps generalizing cs with
  | nil => cases cs with
      | nil => rfl
      | cons c cs' => simp [xPatternTest] at h
  | cons p ps' ih =>
      cases cs with
      | nil => simp [xPatternTest] at h
      | cons c cs' =>
          simp only [xPatternTest, Bool.and_eq_true] at h
          simpa using ih cs' h.2

theorem xPatternTest_50x_explicit (a b c : Char) :
    xPatternTest ['5', '0', 'x'] [a, b, c] =
      (decide (a = '5') && decide (b = '0') && c.isDigit) := by
  simp [xPatternTest, Bool.and_assoc]

/-- The `50x` pattern accepts exactly the statuses 500–509. -/
theorem xPatternTest_50x (n : Nat) :
    xPatternTest ['5', '0', 'x'] (natChars n) = true ↔ 500 ≤ n ∧ n ≤ 509 := by
  rcases Nat.lt_or_ge n 100 with h100 | h100
  · constructor
    · intro h
      have hl := xPatternTest_length _ _ h
      rw [natChars_eq] at hl
      by_cases h10 : n < 10
      · simp [h10] at hl
      · rw [natChars_eq] at hl
        have : n / 10 < 10 := by omega
        simp [h10, this] at hl
    · omega
  · rcases Nat.lt_or_ge n 1000 with h1000 | h1000
    · rw [natChars_three n h100 (by omega)]
      have hd1 : n / 100 < 10 := by omega
      have hd2 : n / 10 % 10 < 10 := Nat.mod_lt _ (by omega)
      have hd3 : n % 10 < 10 := Nat.mod_lt _ (by omega)
      rw [xPatternTest_50x_explicit]
      simp only [Bool.and_eq_true, decide_eq_true_eq]
      constructor
      · rintro ⟨⟨he1, he2⟩, -⟩
        have h5 : n / 100 = 5 := by
          have := (digitChar_eq_iff (n / 100) 5 hd1 (by omega)).mp
          simp only [show digitChar 5 = '5' from rfl] at this
          exact this he1
        have h0 : n / 10 % 10 = 0 := by
          have := (digitChar_eq_iff (n / 10 % 10) 0 hd2 (by omega)).mp
          simp only [show digitChar 0 = '0' from rfl] at this
          exact this he2
        omega
      · intro hr
        have h5 : n / 100 = 5 := by omega
        have h0 : n / 10 % 10 = 0 := by omega
        refine ⟨⟨?_, ?_⟩, ?_⟩
        · rw [h5]; rfl
        · rw [h0]; rfl
        · exact digitChar_isDigit _ hd3
    · constructor
      · intro h
        have hl := xPatternTest_length _ _ h
        have := natChars_length_big n h1000
        simp only [List.length_cons, List.length_nil] at hl
        omega
      · omega

theorem toJsString_natNum (n : Nat) :
    toJsString (.jNum (n : Int)) = String.mk (natChars n) := by
  simp [toJsString, intToString]

/-- C2, counterexample: the claim's "in particular" says the pattern
`"50x"` compiles to `/^5\d\d$/`, true for every status 500–599; but the
source replaces each `x` by `\d`, giving `/^50\d$/`, and the compiled
classifier returns `false` on status 510 although `500 ≤ 510 ≤ 599`. -/
theorem c2_counterexample :
    (createCondition "status" (.jStr "50x")).map (fun c => c (.jNum 510)) = .ok false
    ∧ (500 ≤ 510 ∧ 510 ≤ 599) :=
  ⟨rfl, by omega⟩

/-- C2, amended: a numeric `status` option matches exactly that status;
a digits-and-`x` pattern replaces each `x` (and only `x`) by a digit
wildcard, so `"50x"` compiles to `/^50\d$/`, true exactly for statuses
500–509 (not 500–599); an option that is neither all digits nor
digits-and-`x` throws at compile time. -/
theorem c2_amended :
    (∀ (n : Nat) (v : JValue), ∃ c,
      createCondition "status" (.jNum (n : Int)) = .ok c
      ∧ (c v = true ↔ v = .jNum (n : Int)))
    ∧ (∀ n : Nat,
        (createCondition "status" (.jStr "50x")).map (fun c => c (.jNum (n : Int))) =
          .ok (decide (500 ≤ n ∧ n ≤ 509)))
    ∧ (∀ s : String,
        ¬(s.data ≠ [] ∧ s.data.all Char.isDigit) →
        ¬(s.data ≠ [] ∧ s.data.all (fun c => c.isDigit || c = 'x')) →
        (createCondition "status" (.jStr s)).isOk = false) := by
  refine ⟨fun n v => ?_, fun n => ?_, fun s h1 h2 => ?_⟩
  · refine ⟨fun v => match v with
      | .jNum m => decide (m = (digitsVal (natChars n) : Int))
      | _ => false, ?_, ?_⟩
    · unfold createCondition
      rw [if_pos rfl]
      simp only [toJsString_natNum]
      rw [if_pos ⟨natChars_ne_nil n, natChars_digits n⟩]
    · cases v with
      | jNum m =>
          simp [digitsVal_natChars n]
      | _ => simp
  · have hc : createCondition "status" (.jStr "50x") =
        .ok (fun v => xPatternTest "50x".data (toJsString v).data) := rfl
    rw [hc]
    simp only [Except.map]
    congr 1
    rw [toJsString_natNum]
    show xPatternTest ['5', '0', 'x'] (natChars n) = decide (500 ≤ n ∧ n ≤ 509)
    rw [Bool.eq_iff_iff, decide_eq_true_eq]
    exact xPatternTest_50x n
  · unfold createCondition
    rw [if_pos rfl]
    simp only [show toJsString (.jStr s) = s from rfl]
    rw [if_neg h1, if_neg h2]
    rfl

/-- C2, witness for the amended theorem: the invalid-option branch at
the concrete option `"5a"`. -/
theorem c2_amended_witness :
    (createCondition "status" (.jStr "5a")).isOk = false :=
  c2_amended.2.2 "5a" (by decide) (by decide)

/-- C9: a retry-policy field that is present but falsy is silently
replaced by its default (`retry_on` → `{status:['50x']}`, `ignore` →
`{status:[412]}`, `retry_delay` → 60000, `retry_limit` → 2,
`retry_factor` → 6); in particular an explicit zero cannot be
configured: every constructed rule has non-zero retry numbers. -/
theorem c9_falsy_retry_fields_defaulted (name : String) (spec : RuleSpec)
    (r : Rule) (h : mkRule name spec = .ok r) :
    (spec.retry_limit = some 0 → r.retry_limit = 2)
    ∧ (spec.retry_delay = some 0 → r.retry_delay = 60000)
    ∧ (spec.retry_factor = some 0 → r.retry_factor = 6)
    ∧ (spec.retry_on = none → r.retry_on = defaultRetryOn)
    ∧ (spec.ignore = none → r.ignore = defaultIgnore)
    ∧ r.retry_limit ≠ 0 ∧ r.retry_delay ≠ 0 ∧ r.retry_factor ≠ 0 := by
  have hfields : r.retry_limit = jsOrNum spec.retry_limit 2
      ∧ r.retry_delay = jsOrNum spec.retry_delay 60000
      ∧ r.retry_factor = jsOrNum spec.retry_factor 6
      ∧ r.retry_on = (spec.retry_on).getD defaultRetryOn
      ∧ r.ignore = (spec.ignore).getD defaultIgnore := by
    unfold mkRule at h
    split at h
    · exact absurd h (by simp)
    · split at h
      · exact absurd h (by simp)
      · split at h
        · exact absurd h (by simp)
        · split at h
          · exact absurd h (by simp)
          · split at h
            · exact absurd h (by simp)
            · cases h
              exact ⟨rfl, rfl, rfl, rfl, rfl⟩
  obtain ⟨h1, h2, h3, h4, h5⟩ := hfields
  refine ⟨fun hz => ?_, fun hz => ?_, fun hz => ?_, fun hz => ?_, fun hz => ?_, ?_, ?_, ?_⟩
  · rw [h1, hz]; rfl
  · rw [h2, hz]; rfl
  · rw [h3, hz]; rfl
  · rw [h4, hz]; rfl
  · rw [h5, hz]; rfl
  · rw [h1]; cases spec.retry_limit with
    | none => simp [jsOrNum]
    | some n => by_cases hn : n = 0 <;> simp [jsOrNum, hn]
  · rw [h2]; cases spec.retry_delay with
    | none => simp [jsOrNum]
    | some n => by_cases hn : n = 0 <;> simp [jsOrNum, hn]
  · rw [h3]; cases spec.retry_factor with
    | none => simp [jsOrNum]
    | some n => by_cases hn : n = 0 <;> simp [jsOrNum, hn]

/-- A sample rule specification with explicit `retry_limit: 0` and
`retry_delay: 0`. -/
def c9SampleSpec : RuleSpec :=
  { topic := some "simple_test_rule", retry_on := none, ignore := none,
    retry_delay := some 0, retry_limit := some 0, retry_factor := none,
    match_ := some (.mObj [("message", .mStr "test")]), match_not := none,
    exec := some (.jObj [("uri", .jStr "http://mock.com/")]),
    cases := none, decode_results := false }

/-- The rule constructed from `c9SampleSpec`. -/
def c9SampleRule : Rule :=
  (mkRule "simple_test_rule" c9SampleSpec).toOption.getD
    ⟨"", "", [], [], 0, 0, 0, [], false⟩

/-- C9, witness: a concrete rule configured with `retry_limit: 0` and
`retry_delay: 0` comes out with the defaults 2 and 60000. -/
theorem c9_falsy_retry_fields_defaulted_witness :
    c9SampleRule.retry_limit = 2 ∧ c9SampleRule.retry_delay = 60000 :=
  ⟨(c9_falsy_retry_fields_defaulted "simple_test_rule" c9SampleSpec
      c9SampleRule rfl).1 rfl,
   (c9_falsy_retry_fields_defaulted "simple_test_rule" c9SampleSpec
      c9SampleRule rfl).2.1 rfl⟩

@[simp] theorem exBind_ok {α β ε : Type} (a : α) (f : α → Except ε β) :
    (Except.ok a >>= f) = f a := rfl

@[simp] theorem exPure_eq_ok {α ε : Type} (a : α) :
    (pure a : Except ε α) = Except.ok a := rfl

@[simp] theorem exIsOk_ok {α ε : Type} (a : α) :
    (Except.ok a : Except ε α).isOk = true := rfl

@[simp] theorem exIsOk_err {α ε : Type} (e : ε) :
    (Except.error e : Except ε α).isOk = false := rfl

@[simp] theorem exBind_err {α β ε : Type} (e : ε) (f : α → Except ε β) :
    ((Except.error e : Except ε α) >>= f) = Except.error e := rfl

/-- The natural-language semantics of one stanza field, following the
spec's combination sentence: a field given as a single option is
satisfied when its compiled condition accepts the result's field value;
a field given as an array is satisfied when at least one option's
condition does. -/
def fieldSatisfied (p : String × RVal) (res : RResult) : Prop :=
  match p.2 with
  | .single o => ∃ c, createCondition p.1 o = .ok c
      ∧ c (resLookup res p.1) = true
  | .arr os => ∃ o ∈ os, ∃ c, createCondition p.1 o = .ok c
      ∧ c (resLookup res p.1) = true

theorem anyCond_iff (f : String) (res : RResult) :
    ∀ (os : List JValue) (cs : List (JValue → Bool)),
      os.mapM (createCondition f) = .ok cs →
      (cs.any (fun c => c (resLookup res f)) = true ↔
        ∃ o ∈ os, ∃ c, createCondition f o = .ok c ∧ c (resLookup res f) = true) := by
  intro os
  induction os with
  | nil =>
      intro cs h
      simp only [List.mapM_nil, pure] at h
      cases h
      simp
  | cons o os' ih =>
      intro cs h
      rw [List.mapM_cons] at h
      cases hc : createCondition f o with
      | error e => rw [hc] at h; simp at h
      | ok c =>
          rw [hc] at h
          cases hcs : os'.mapM (createCondition f) with
          | error e => rw [hcs] at h; simp [pure] at h
          | ok cs' =>
              rw [hcs] at h
              simp only [exBind_ok, pure, Except.ok.injEq] at h
              cases h
              simp only [List.any_cons, Bool.or_eq_true, List.mem_cons]
              rw [ih cs' hcs]
              constructor
              · rintro (hb | ⟨o', ho', c', hc', hb⟩)
                · exact ⟨o, Or.inl rfl, c, hc, hb⟩
                · exact ⟨o', Or.inr ho', c', hc', hb⟩
              · rintro ⟨o', ho' | ho', c', hc', hb⟩
                · subst ho'
                  rw [hc] at hc'
                  cases hc'
                  exact Or.inl hb
                · exact Or.inr ⟨o', ho', c', hc', hb⟩

theorem compileStanzaField_sem (p : String × RVal) (c : RResult → Bool)
    (res : RResult) (h : compileStanzaField p = .ok c) :
    c res = true ↔ fieldSatisfied p res := by
  obtain ⟨f, rv⟩ := p
  cases rv with
  | single o =>
      simp only [compileStanzaField] at h
      cases hc : createCondition f o with
      | error e => rw [hc] at h; simp at h
      | ok c' =>
          rw [hc] at h
          simp only [exBind_ok, Except.ok.injEq] at h
          cases h
          simp only [fieldSatisfied]
          constructor
          · intro hb; exact ⟨c', hc, hb⟩
          · rintro ⟨c'', hc'', hb⟩
            rw [hc] at hc''
            cases hc''
            exact hb
  | arr os =>
      simp only [compileStanzaField] at h
      by_cases hemp : os.isEmpty
      · rw [if_pos hemp] at h; simp at h
      · rw [if_neg hemp] at h
        cases hcs : os.mapM (createCondition f) with
        | error e => rw [hcs] at h; simp at h
        | ok cs =>
            rw [hcs] at h
            simp only [exBind_ok, Except.ok.injEq] at h
            cases h
            exact anyCond_iff f res os cs hcs

theorem allFields_iff (res : RResult) :
    ∀ (defn : RetryStanza) (cs : List (RResult → Bool)),
      defn.mapM compileStanzaField = .ok cs →
      (cs.all (fun c => c res) = true ↔ ∀ p ∈ defn, fieldSatisfied p res) := by
  intro defn
  induction defn with
  | nil =>
      intro cs h
      simp only [List.mapM_nil, pure] at h
      cases h
      simp
  | cons p defn' ih =>
      intro cs h
      rw [List.mapM_cons] at h
      cases hc : compileStanzaField p with
      | error e => rw [hc] at h; simp at h
      | ok c =>
          rw [hc] at h
          cases hcs : defn'.mapM compileStanzaField with
          | error e => rw [hcs] at h; simp [pure] at h
          | ok cs' =>
              rw [hcs] at h
              simp only [exBind_ok, pure, Except.ok.injEq] at h
              cases h
              simp only [List.all_cons, Bool.and_eq_true, List.mem_cons]
              rw [ih cs' hcs, compileStanzaField_sem p c res hc]
              constructor
              · rintro ⟨h1, h2⟩ q (hq | hq)
                · subst hq; exact h1
                · exact h2 q hq
              · intro hall
                exact ⟨hall p (Or.inl rfl), fun q hq => hall q (Or.inr hq)⟩

/-- C4: the compiled `retry_on` / `ignore` classifier is a pure function
of the result and accepts exactly when every stanza field is satisfied,
a field given as an array being satisfied when at least one of its
options matches — AND across different fields, OR within one field's
array. -/
theorem c4_classifier_and_or (defn : RetryStanza) (res : RResult) (b : Bool)
    (h : (compileErrorCheckCondition defn).map (fun cl => cl res) = .ok b) :
    b = true ↔ ∀ p ∈ defn, fieldSatisfied p res := by
  unfold compileErrorCheckCondition at h
  by_cases hemp : defn.isEmpty
  · rw [if_pos hemp] at h; simp [Except.map] at h
  · rw [if_neg hemp] at h
    cases hcs : defn.mapM compileStanzaField with
    | error e => rw [hcs] at h; simp [Except.map] at h
    | ok cs =>
        rw [hcs] at h
        simp only [exBind_ok, Except.map, Except.ok.injEq] at h
        cases h
        exact allFields_iff res defn cs hcs

/-- C4, witness: the default ignore stanza `{status:[412]}` evaluated on
the result `{status: 412}` — the classifier accepts and the field is
satisfied. -/
theorem c4_classifier_and_or_witness :
    fieldSatisfied ("status", .arr [.jNum 412]) [("status", .jNum 412)] :=
  (c4_classifier_and_or defaultIgnore [("status", .jNum 412)] true rfl).mp rfl
    ("status", .arr [.jNum 412]) (by simp [defaultIgnore])

/-- The value of a throwing boolean computation, with a default for the
thrown case. -/
def exGetD (e : JSResult Bool) (d : Bool) : Bool :=
  match e with
  | .ok b => b
  | .error _ => d

/-- `option.match(message) && !option.match_not(message)`, the dispatch
predicate of `Rule.test`, read off the evaluated predicates. -/
def optSat (eng : RegexEngine) (o : ROption) (ev : JValue) : Bool :=
  exGetD (evalOptMatch eng o ev) false && !(exGetD (evalOptNot eng o ev) true)

/-- The first index satisfying the dispatch predicate, in declaration
order (`none` when no option satisfies it). -/
def findSatIdx (eng : RegexEngine) (ev : JValue) : List ROption → Option Nat
  | [] => none
  | o :: os =>
      if optSat eng o ev then some 0
      else (findSatIdx eng ev os).map (fun k => k + 1)

/-- The index `findIndex` is specified to return: the first option
satisfying the dispatch predicate, `-1` when none does. -/
def specTestIdx (eng : RegexEngine) (r : Rule) (ev : JValue) : Int :=
  match findSatIdx eng ev r.options with
  | some i => Int.ofNat i
  | none => -1

theorem findSatIdx_none_iff (eng : RegexEngine) (ev : JValue) (l : List ROption) :
    findSatIdx eng ev l = none ↔ ∀ o ∈ l, optSat eng o ev = false := by
  induction l with
  | nil => simp [findSatIdx]
  | cons o os ih =>
      by_cases hs : optSat eng o ev
      · simp [findSatIdx, hs]
      · rw [show findSatIdx eng ev (o :: os) =
              (findSatIdx eng ev os).map (fun k => k + 1) by
            rw [findSatIdx, if_neg hs]]
        rw [Option.map_eq_none', ih]
        constructor
        · intro hall o' ho'
          rcases List.mem_cons.mp ho' with rfl | h'
          · exact Bool.eq_false_iff.mpr hs
          · exact hall o' h'
        · intro hall o' ho'
          exact hall o' (List.mem_cons_of_mem _ ho')

theorem findSatIdx_some (eng : RegexEngine) (ev : JValue) :
    ∀ (l : List ROption) (i : Nat), findSatIdx eng ev l = some i →
      ∃ o, l.get? i = some o ∧ optSat eng o ev = true
        ∧ ∀ j o', j < i → l.get? j = some o' → optSat eng o' ev = false := by
  intro l
  induction l with
  | nil => intro i h; simp [findSatIdx] at h
  | cons o os ih =>
      intro i h
      by_cases hs : optSat eng o ev
      · rw [findSatIdx, if_pos hs] at h
        cases h
        exact ⟨o, rfl, hs, fun j o' hj _ => absurd hj (Nat.not_lt_zero j)⟩
      · rw [findSatIdx, if_neg hs] at h
        rw [Option.map_eq_some'] at h
        obtain ⟨k, hk, rfl⟩ := h
        obtain ⟨o', hget, hsat, hprev⟩ := ih k hk
        refine ⟨o', hget, hsat, ?_⟩
        intro j o'' hj hget'
        cases j with
        | zero =>
            cases hget'
            exact Bool.eq_false_iff.mpr hs
        | succ j' =>
            exact hprev j' o'' (Nat.lt_of_succ_lt_succ hj) hget'

theorem ruleTestAux_findIdx (eng : RegexEngine) (ev : JValue) :
    ∀ (l : List ROption) (i : Nat),
      l.all (fun o => (evalOptMatch eng o ev).isOk && (evalOptNot eng o ev).isOk) = true →
      ruleTestAux eng ev l i =
        .ok (match findSatIdx eng ev l with
             | some j => Int.ofNat (i + j)
             | none => -1) := by
  intro l
  induction l with
  | nil => intro i _; rfl
  | cons o os ih =>
      intro i H
      simp only [List.all_cons, Bool.and_eq_true] at H
      obtain ⟨⟨hm, hmn⟩, Hrest⟩ := H
      obtain ⟨m, hm⟩ : ∃ m, evalOptMatch eng o ev = .ok m := by
        cases he : evalOptMatch eng o ev with
        | ok m => exact ⟨m, rfl⟩
        | error e => rw [he] at hm; simp [Except.isOk, Except.toBool] at hm
      obtain ⟨mn, hmn⟩ : ∃ mn, evalOptNot eng o ev = .ok mn := by
        cases he : evalOptNot eng o ev with
        | ok mn => exact ⟨mn, rfl⟩
        | error e => rw [he] at hmn; simp [Except.isOk, Except.toBool] at hmn
      have hsat : optSat eng o ev = (m && !mn) := by
        simp [optSat, hm, hmn, exGetD]
      simp only [ruleTestAux, hm, exBind_ok, findSatIdx, hsat]
      cases m with
      | false =>
          simp only [Bool.false_and, Bool.false_eq_true, if_false]
          rw [ih (i + 1) Hrest]
          congr 1
          cases hf : findSatIdx eng ev os <;> simp <;> omega
      | true =>
          simp only [hmn, exBind_ok, Bool.true_and]
          cases mn with
          | true =>
              simp only [Bool.not_true, Bool.false_eq_true, if_false, if_true]
              rw [ih (i + 1) Hrest]
              congr 1
              cases hf : findSatIdx eng ev os <;> simp <;> omega
          | false =>
              simp <;> rfl

/-- C5: on every constructed rule whose compiled predicates evaluate
without throwing on the event, `test(event)` returns the index of the
first option (in declaration order) whose `match` predicate holds and
whose `match_not` predicate does not, and `-1` when no option satisfies
both conditions. -/
theorem c5_test_first_match (eng : RegexEngine) (r : Rule) (ev : JValue)
    (H : r.options.all
      (fun o => (evalOptMatch eng o ev).isOk && (evalOptNot eng o ev).isOk) = true) :
    ruleTest eng r ev = .ok (specTestIdx eng r ev)
    ∧ (specTestIdx eng r ev = -1 ↔ ∀ o ∈ r.options, optSat eng o ev = false)
    ∧ (∀ i : Nat, specTestIdx eng r ev = Int.ofNat i →
        ∃ o, r.options.get? i = some o ∧ optSat eng o ev = true
          ∧ ∀ j o', j < i → r.options.get? j = some o' →
              optSat eng o' ev = false) := by
  refine ⟨?_, ?_, ?_⟩
  · rw [ruleTest, ruleTestAux_findIdx eng ev r.options 0 H]
    unfold specTestIdx
    cases hf : findSatIdx eng ev r.options with
    | none => rfl
    | some j => simp
  · unfold specTestIdx
    cases hf : findSatIdx eng ev r.options with
    | none =>
        exact iff_of_true rfl ((findSatIdx_none_iff eng ev r.options).mp hf)
    | some j =>
        constructor
        · intro habs
          have habs2 : Int.ofNat j = -1 := habs
          exfalso
          rw [Int.ofNat_eq_coe] at habs2
          omega
        · intro hall
          obtain ⟨o, hget, hsat, -⟩ := findSatIdx_some eng ev r.options j hf
          have hmem : o ∈ r.options := List.get?_mem hget
          rw [hall o hmem] at hsat
          exact (Bool.false_ne_true hsat).elim
  · intro i hi
    unfold specTestIdx at hi
    cases hf : findSatIdx eng ev r.options with
    | none =>
        rw [hf] at hi
        have hi2 : (-1 : Int) = Int.ofNat i := hi
        exfalso
        rw [Int.ofNat_eq_coe] at hi2
        omega
    | some j =>
        rw [hf] at hi
        have hij : j = i := by simpa [Int.ofNat_inj] using hi
        subst hij
        exact findSatIdx_some eng ev r.options j hf

/-- The rule and event for the C5 witness: two options, only the second
of which matches the event. -/
def c5SampleRule : Rule :=
  { name := "r", topic := "t", retry_on := defaultRetryOn,
    ignore := defaultIgnore, retry_delay := 60000, retry_limit := 2,
    retry_factor := 6,
    options := [⟨some (.mObj [("message", .mStr "a")]), none, none⟩,
                ⟨some (.mObj [("message", .mStr "b")]), none, none⟩],
    noop := true }

/-- C5, witness: on the sample rule `test` picks the second option
(index 1). -/
theorem c5_test_first_match_witness :
    ruleTest noMatchEngine c5SampleRule (.jObj [("message", .jStr "b")]) = .ok 1 :=
  (c5_test_first_match noMatchEngine c5SampleRule (.jObj [("message", .jStr "b")])
    rfl).1

mutual
theorem compileMatchCheck_mixing (t : MTree) :
    (compileMatchCheck t).isOk = !hasMixing t := by
  cases t with
  | mStr s =>
      by_cases h1 : s = "undefined"
      · subst h1; rfl
      · by_cases h2 : isRegexString s
        · by_cases h3 : regexMixesCaptures s
          · simp [compileMatchCheck, hasMixing, h1, h2, h3, Except.isOk,
              Except.toBool]
          · simp [compileMatchCheck, hasMixing, h1, h2, h3, Except.isOk,
              Except.toBool]
        · simp [compileMatchCheck, hasMixing, h1, h2, Except.isOk,
            Except.toBool]
  | mNum n => rfl
  | mBool b => rfl
  | mArr items => exact compileMatchCheckList_mixing items
  | mObj fields => exact compileMatchCheckFields_mixing fields

theorem compileMatchCheckList_mixing (l : List MTree) :
    (compileMatchCheckList l).isOk = !hasMixingList l := by
  cases l with
  | nil => rfl
  | cons t ts =>
      have h1 := compileMatchCheck_mixing t
      cases hc : compileMatchCheck t with
      | error e =>
          rw [hc] at h1
          have ht : hasMixing t = true := by
            cases hmx : hasMixing t
            · rw [hmx] at h1; exact absurd h1.symm (by simp [Except.isOk, Except.toBool])
            · rfl
          show (do
            compileMatchCheck t
            compileMatchCheckList ts).isOk = !hasMixingList (t :: ts)
          rw [hc]
          simp [hasMixingList, ht, Except.isOk, Except.toBool]
      | ok u =>
          cases u
          rw [hc] at h1
          have ht : hasMixing t = false := by
            cases hmx : hasMixing t
            · rfl
            · rw [hmx] at h1; exact absurd h1 (by simp [Except.isOk, Except.toBool])
          have h2 := compileMatchCheckList_mixing ts
          show (do
            compileMatchCheck t
            compileMatchCheckList ts).isOk = !hasMixingList (t :: ts)
          rw [hc]
          simp only [exBind_ok]
          rw [h2]
          simp [hasMixingList, ht]

theorem compileMatchCheckFields_mixing (l : List (String × MTree)) :
    (compileMatchCheckFields l).isOk = !hasMixingFields l := by
  cases l with
  | nil => rfl
  | cons p rest =>
      obtain ⟨k, t⟩ := p
      have h1 := compileMatchCheck_mixing t
      cases hc : compileMatchCheck t with
      | error e =>
          rw [hc] at h1
          have ht : hasMixing t = true := by
            cases hmx : hasMixing t
            · rw [hmx] at h1; exact absurd h1.symm (by simp [Except.isOk, Except.toBool])
            · rfl
          show (do
            compileMatchCheck t
            compileMatchCheckFields rest).isOk = !hasMixingFields ((k, t) :: rest)
          rw [hc]
          simp [hasMixingFields, ht, Except.isOk, Except.toBool]
      | ok u =>
          cases u
          rw [hc] at h1
          have ht : hasMixing t = false := by
            cases hmx : hasMixing t
            · rfl
            · rw [hmx] at h1; exact absurd h1 (by simp [Except.isOk, Except.toBool])
          have h2 := compileMatchCheckFields_mixing rest
          show (do
            compileMatchCheck t
            compileMatchCheckFields rest).isOk = !hasMixingFields ((k, t) :: rest)
          rw [hc]
          simp only [exBind_ok]
          rw [h2]
          simp [hasMixingFields, ht]
end

theorem mapM_ok_forall {α β : Type} (f : α → Except String β) :
    ∀ (l : List α) (ys : List β), l.mapM f = .ok ys →
      ∀ x ∈ l, ∃ y, f x = .ok y := by
  intro l
  induction l with
  | nil => intro ys _ x hx; exact absurd hx (List.not_mem_nil x)
  | cons a l' ih =>
      intro ys h x hx
      rw [List.mapM_cons] at h
      cases ha : f a with
      | error e => rw [ha] at h; simp at h
      | ok y =>
          rw [ha] at h
          cases hl : l'.mapM f with
          | error e => rw [hl] at h; simp [pure] at h
          | ok ys' =>
              rcases List.mem_cons.mp hx with rfl | hx'
              · exact ⟨y, ha⟩
              · exact ih ys' hl x hx'

theorem mkRule_ok_options (name : String) (spec : RuleSpec) (r : Rule)
    (h : mkRule name spec = .ok r) :
    (effectiveCases spec).mapM (processOption name spec.decode_results) =
      .ok r.options := by
  unfold mkRule at h
  split at h
  · exact absurd h (by simp)
  · split at h
    · exact absurd h (by simp)
    · split at h
      · exact absurd h (by simp)
      · split at h
        · exact absurd h (by simp)
        · split at h
          · exact absurd h (by simp)
          · next opts heq =>
              cases h
              exact heq

theorem processOption_ok_matches (name : String) (dec : Bool) (c : CaseSpec)
    (o : ROption) (h : processOption name dec c = .ok o) :
    ∀ t, (c.match_ = some t → compileMatchCheck t = .ok ())
      ∧ (c.match_not = some t → compileMatchCheck t = .ok ()) := by
  intro t
  unfold processOption at h
  cases hm : processMatch c.match_ with
  | error e => rw [hm] at h; simp at h
  | ok m =>
      rw [hm] at h
      cases hmn : processMatch c.match_not with
      | error e => rw [hmn] at h; simp at h
      | ok mn =>
          constructor
          · intro hmt
            rw [hmt] at hm
            have hm2 : (do
                compileMatchCheck t
                Except.ok (some t) : Except String (Option MTree)) = Except.ok m := hm
            cases hcc : compileMatchCheck t with
            | error e => rw [hcc] at hm2; simp at hm2
            | ok u => cases u; rfl
          · intro hmt
            rw [hmt] at hmn
            have hmn2 : (do
                compileMatchCheck t
                Except.ok (some t) : Except String (Option MTree)) = Except.ok mn := hmn
            cases hcc : compileMatchCheck t with
            | error e => rw [hcc] at hmn2; simp at hmn2
            | ok u => cases u; rfl

/-- C8: a match tree containing a regex literal that mixes named and
unnamed capture groups never survives compilation — the compile-time
traversal throws on every such tree, and consequently no constructed
rule has an option whose `match` or `match_not` tree contains a mixing
regex. -/
theorem c8_mixing_rejected (name : String) (spec : RuleSpec) (r : Rule)
    (h : mkRule name spec = .ok r) :
    (∀ t : MTree, hasMixing t = true → ∃ e, compileMatchCheck t = .error e)
    ∧ (∀ c ∈ effectiveCases spec, ∀ t,
        (c.match_ = some t → hasMixing t = false)
        ∧ (c.match_not = some t → hasMixing t = false)) := by
  constructor
  · intro t hmix
    have := compileMatchCheck_mixing t
    rw [hmix] at this
    cases hc : compileMatchCheck t with
    | error e => exact ⟨e, rfl⟩
    | ok u => rw [hc] at this; exact absurd this (by simp [Except.isOk, Except.toBool])
  · intro c hc t
    have hmapM := mkRule_ok_options name spec r h
    obtain ⟨o, ho⟩ := mapM_ok_forall _ _ _ hmapM c hc
    have hm := processOption_ok_matches name spec.decode_results c o ho t
    constructor
    · intro hmt
      have hok := hm.1 hmt
      have := compileMatchCheck_mixing t
      rw [hok] at this
      cases hmx : hasMixing t
      · rfl
      · rw [hmx] at this; exact absurd this (by simp [Except.isOk, Except.toBool])
    · intro hmt
      have hok := hm.2 hmt
      have := compileMatchCheck_mixing t
      rw [hok] at this
      cases hmx : hasMixing t
      · rfl
      · rw [hmx] at this; exact absurd this (by simp [Except.isOk, Except.toBool])

/-- The rule specification for the C8 witness: a plain regex match with
only named captures, which compiles fine. -/
def c8SampleSpec : RuleSpec :=
  { topic := some "mediawiki.revision_create", retry_on := none, ignore := none,
    retry_delay := none, retry_limit := none, retry_factor := none,
    match_ := some (.mObj [("title", .mStr "/(?<t>.+)/")]), match_not := none,
    exec := some (.jObj [("uri", .jStr "http://mock.com/")]),
    cases := none, decode_results := false }

/-- The rule constructed from `c8SampleSpec`. -/
def c8SampleRule : Rule :=
  (mkRule "backlinks" c8SampleSpec).toOption.getD
    ⟨"", "", [], [], 0, 0, 0, [], false⟩

/-- C8, witness: the sample rule compiles, and the theorem certifies its
match tree free of mixing (and that the mixing tree
`/(?<foo>a)(b)/` would throw). -/
theorem c8_mixing_rejected_witness :
    hasMixing (.mObj [("title", .mStr "/(?<t>.+)/")]) = false
    ∧ ∃ e, compileMatchCheck (.mStr "/(?<foo>a)(b)/") = .error e :=
  ⟨((c8_mixing_rejected "backlinks" c8SampleSpec c8SampleRule rfl).2
      ⟨some (.mObj [("title", .mStr "/(?<t>.+)/")]), none,
        some (.jObj [("uri", .jStr "http://mock.com/")])⟩ (by simp [effectiveCases, c8SampleSpec])
      (.mObj [("title", .mStr "/(?<t>.+)/")])).1 rfl,
   (c8_mixing_rejected "backlinks" c8SampleSpec c8SampleRule rfl).1
      (.mStr "/(?<foo>a)(b)/") rfl⟩

/-! ### C1: totality of the compiled predicate -/

/-- A scalar (non-object, non-array) match-tree leaf. -/
def isScalarLeaf : MTree → Bool
  | .mStr _ => true
  | .mNum _ => true
  | .mBool _ => true
  | _ => false

/-- A constant scalar leaf: a plain string (neither the `"undefined"`
sentinel nor a regex literal), a number, or a boolean — the leaves that
compile to a strict comparison against a literal. -/
def isConstScalarLeaf : MTree → Bool
  | .mStr s => !(decide (s = "undefined")) && !isRegexString s
  | .mNum _ => true
  | .mBool _ => true
  | _ => false

theorem scalarLeaf_eval_ok (eng : RegexEngine) (t : MTree)
    (h : isScalarLeaf t = true) (v : JValue) :
    ∃ b, evalMatch eng t (pure v) = .ok b := by
  cases t with
  | mStr s =>
      by_cases h1 : s = "undefined"
      · subst h1; exact ⟨_, rfl⟩
      · by_cases h2 : isRegexString s
        · refine ⟨(eng (normalizeRegex s) (toJsString v)).isSome, ?_⟩
          unfold evalMatch
          rw [if_neg h1, if_pos h2]
          rfl
        · refine ⟨(match v with | .jStr t => decide (t = s) | _ => false), ?_⟩
          unfold evalMatch
          rw [if_neg h1, if_neg (by simp [h2])]
          rfl
  | mNum n => exact ⟨_, rfl⟩
  | mBool b => exact ⟨_, rfl⟩
  | mArr items => simp [isScalarLeaf] at h
  | mObj fields => simp [isScalarLeaf] at h

theorem constScalarLeaf_undef_false (eng : RegexEngine) (t : MTree)
    (h : isConstScalarLeaf t = true) :
    evalMatch eng t (pure .jUndefined) = .ok false := by
  cases t with
  | mStr s =>
      have h1 : ¬ (s = "undefined") := by
        intro hs
        rw [hs] at h
        exact absurd h (by decide)
      have h2 : ¬ (isRegexString s = true) := by
        intro hr
        simp [isConstScalarLeaf, hr] at h
      unfold evalMatch
      rw [if_neg h1, if_neg h2]
      rfl
  | mNum n => rfl
  | mBool b => rfl
  | mArr items => simp [isConstScalarLeaf] at h
  | mObj fields => simp [isConstScalarLeaf] at h

/-- C1, counterexample: on the match tree `{a: {b: "test"}}` the
compiled predicate is `message['a']['b'] === 'test'`; on the event `{}`
the inner access `message['a']` yields `undefined` and the outer access
throws a `TypeError` — the predicate does not return `false` for a
missing nested field, it crashes. -/
theorem c1_counterexample :
    evalMatch noMatchEngine (.mObj [("a", .mObj [("b", .mStr "test")])])
      (pure (.jObj [])) = .error () := rfl

/-- C1, amended: the compiled predicate is total on *flat* match trees
(an object of scalar leaves) evaluated against an object event — and a
missing top-level field compared against a constant makes it return
`false` — but a field addressed *beneath* a missing parent throws a
`TypeError` instead of yielding `false` (see the counterexample). -/
theorem c1_amended (eng : RegexEngine) (fields : List (String × MTree))
    (fs : List (String × JValue))
    (hleaf : fields.all (fun p => isScalarLeaf p.2) = true) :
    (∃ b, evalMatch eng (.mObj fields) (pure (.jObj fs)) = .ok b)
    ∧ (∀ k t rest, fields = (k, t) :: rest → isConstScalarLeaf t = true →
        fs.lookup k = none →
        evalMatch eng (.mObj fields) (pure (.jObj fs)) = .ok false) := by
  constructor
  · show ∃ b, evalFields eng fields (pure (.jObj fs)) = .ok b
    induction fields with
    | nil => exact ⟨true, rfl⟩
    | cons p rest ih =>
        obtain ⟨k, t⟩ := p
        simp only [List.all_cons, Bool.and_eq_true] at hleaf
        obtain ⟨hlt, hlr⟩ := hleaf
        have hacc : jsAccess (pure (.jObj fs)) k =
            pure ((fs.lookup k).getD .jUndefined) := rfl
        obtain ⟨b, hb⟩ := scalarLeaf_eval_ok eng t hlt ((fs.lookup k).getD .jUndefined)
        rw [← hacc] at hb
        simp only [exPure_eq_ok] at hb
        cases b with
        | false => exact ⟨false, by simp [evalFields, hb]⟩
        | true =>
            obtain ⟨b2, hb2⟩ := ih hlr
            simp only [exPure_eq_ok] at hb2
            refine ⟨b2, ?_⟩
            simp [evalFields, hb, hb2]
  · intro k t rest hf hconst hlook
    subst hf
    show evalFields eng ((k, t) :: rest) (pure (.jObj fs)) = .ok false
    have hacc : jsAccess (pure (.jObj fs)) k = pure .jUndefined := by
      show getField (.jObj fs) k = pure .jUndefined
      simp [getField, hlook]
    have hm := constScalarLeaf_undef_false eng t hconst
    have hm2 : evalMatch eng t (jsAccess (pure (.jObj fs)) k) = .ok false := by
      rw [hacc]; exact hm
    simp only [exPure_eq_ok] at hm2
    simp [evalFields, hm2]

/-- C1, witness for the amended theorem: the flat tree
`{message: "test"}` on the empty event `{}` (the third input of the
spec's first end-to-end scenario) evaluates to `false` without
throwing. -/
theorem c1_amended_witness :
    evalMatch noMatchEngine (.mObj [("message", .mStr "test")])
      (pure (.jObj [])) = .ok false :=
  (c1_amended noMatchEngine [("message", .mStr "test")] [] (by decide)).2
    "message" (.mStr "test") [] rfl (by decide) rfl


/-! ### C3: predicate / binder relationship -/

theorem evalFields_all_true (eng : RegexEngine) :
    ∀ (l : List (String × MTree)) (nv : JSResult JValue),
      evalFields eng l nv = .ok true →
      ∀ p ∈ l, evalMatch eng p.2 (jsAccess nv p.1) = .ok true := by
  intro l
  induction l with
  | nil => intro nv _ p hp; exact absurd hp (List.not_mem_nil p)
  | cons q rest ih =>
      intro nv h p hp
      obtain ⟨k, t⟩ := q
      cases hb : evalMatch eng t (jsAccess nv k) with
      | error e =>
          rw [show evalFields eng ((k, t) :: rest) nv = .error e by
            simp [evalFields, hb]] at h
          exact absurd h (by simp)
      | ok b =>
          cases b with
          | false =>
              rw [show evalFields eng ((k, t) :: rest) nv = .ok false by
                simp [evalFields, hb]] at h
              exact absurd h (by simp)
          | true =>
              have hrest : evalFields eng rest nv = .ok true := by
                rw [show evalFields eng ((k, t) :: rest) nv =
                    evalFields eng rest nv by simp [evalFields, hb]] at h
                exact h
              rcases List.mem_cons.mp hp with rfl | hp'
              · exact hb
              · exact ih nv hrest p hp'

theorem sizeOf_field_lt (k : String) (t : MTree) (fields : List (String × MTree))
    (h : (k, t) ∈ fields) : sizeOf t < sizeOf (MTree.mObj fields) := by
  have h1 : sizeOf (k, t) < sizeOf fields := List.sizeOf_lt_of_mem h
  have h2 : sizeOf (k, t) = 1 + sizeOf k + sizeOf t := rfl
  simp only [MTree.mObj.sizeOf_spec]
  omega

theorem c3_aux (eng : RegexEngine) :
    ∀ (n : Nat) (t : MTree), sizeOf t ≤ n → ∀ (nv : JSResult JValue),
      evalMatch eng t nv = .ok true →
      ∀ e, bindContrib eng t nv = some e → e.isOk = true := by
  intro n
  induction n with
  | zero =>
      intro t ht
      have : 0 < sizeOf t := by cases t <;> simp
      omega
  | succ n ih =>
      intro t ht nv hmatch e hcontrib
      cases t with
      | mStr s =>
          by_cases h1 : s = "undefined"
          · rw [show bindContrib eng (.mStr s) nv = none by
              simp [bindContrib, h1]] at hcontrib
            exact absurd hcontrib (by simp)
          · by_cases h2 : isRegexString s
            · have hmatch2 : (do
                  let v ← nv
                  pure (eng (normalizeRegex s) (toJsString v)).isSome :
                    JSResult Bool) = .ok true := by
                rw [← hmatch]
                unfold evalMatch
                rw [if_neg h1, if_pos h2]
              cases hnv : nv with
              | error u => rw [hnv] at hmatch2; exact absurd hmatch2 (by simp)
              | ok v =>
                  rw [hnv] at hmatch2
                  simp only [exBind_ok, exPure_eq_ok, Except.ok.injEq] at hmatch2
                  obtain ⟨entries, hen⟩ :
                      ∃ es, eng (normalizeRegex s) (toJsString v) = some es := by
                    cases he : eng (normalizeRegex s) (toJsString v) with
                    | none => rw [he] at hmatch2; simp at hmatch2
                    | some es => exact ⟨es, rfl⟩
                  by_cases h3 : (captureNames s).isEmpty
                  · rw [show bindContrib eng (.mStr s) nv = some (do
                        let v ← nv
                        pure (execToJValue (eng (normalizeRegex s) (toJsString v)))) by
                      simp [bindContrib, h1, h2, h3]] at hcontrib
                    cases hcontrib
                    simp [hnv]
                  · rw [show bindContrib eng (.mStr s) nv = some (do
                        let v ← nv
                        match eng (normalizeRegex s) (toJsString v) with
                        | none => throw ()
                        | some entries =>
                            pure (.jObj ((captureNames s).enum.map
                              (fun p => (p.2, execEntry entries (p.1 + 1)))))) by
                      simp [bindContrib, h1, h2, h3]] at hcontrib
                    cases hcontrib
                    simp [hnv, hen]
            · rw [show bindContrib eng (.mStr s) nv = some (pure (.jStr s)) by
                simp [bindContrib, h1, h2]] at hcontrib
              cases hcontrib
              rfl
      | mNum m =>
          cases hcontrib
          rfl
      | mBool b =>
          cases hcontrib
          rfl
      | mArr items =>
          exact absurd hcontrib (by simp [bindContrib])
      | mObj fields =>
          have hfields : ∀ p ∈ fields,
              evalMatch eng p.2 (jsAccess nv p.1) = .ok true :=
            evalFields_all_true eng fields nv hmatch
          have key : ∀ l : List (String × MTree),
              (∀ p ∈ l, p ∈ fields) →
              (bindFields eng l nv).isOk = true := by
            intro l
            induction l with
            | nil => intro _; rfl
            | cons q rest ihl =>
                intro hsub
                obtain ⟨k, t'⟩ := q
                have hmem : (k, t') ∈ fields := hsub _ (List.mem_cons_self _ _)
                have hszt : sizeOf t' ≤ n := by
                  have := sizeOf_field_lt k t' fields hmem
                  omega
                have hev : evalMatch eng t' (jsAccess nv k) = .ok true :=
                  hfields (k, t') hmem
                have hrest : (bindFields eng rest nv).isOk = true :=
                  ihl (fun p hp => hsub p (List.mem_cons_of_mem _ hp))
                cases hbc : bindContrib eng t' (jsAccess nv k) with
                | none =>
                    rw [show bindFields eng ((k, t') :: rest) nv =
                        bindFields eng rest nv by
                      simp [bindFields, hbc]]
                    exact hrest
                | some e' =>
                    have he' : e'.isOk = true := ih t' hszt _ hev e' hbc
                    obtain ⟨v', hv'⟩ : ∃ v', e' = .ok v' := by
                      cases hx : e' with
                      | ok v' => exact ⟨v', rfl⟩
                      | error u =>
                          rw [hx] at he'
                          exact absurd he' (by simp [Except.isOk, Except.toBool])
                    obtain ⟨vs, hvs⟩ : ∃ vs, bindFields eng rest nv = .ok vs := by
                      cases hx : bindFields eng rest nv with
                      | ok vs => exact ⟨vs, rfl⟩
                      | error u =>
                          rw [hx] at hrest
                          exact absurd hrest (by simp [Except.isOk, Except.toBool])
                    rw [show bindFields eng ((k, t') :: rest) nv =
                        .ok ((k, v') :: vs) by
                      simp [bindFields, hbc, hv', hvs]]
                    rfl
          have hbf : (bindFields eng fields nv).isOk = true :=
            key fields (fun p hp => hp)
          rw [show bindContrib eng (.mObj fields) nv = some (do
              let fs ← bindFields eng fields nv
              pure (.jObj fs)) from rfl] at hcontrib
          cases hcontrib
          obtain ⟨vs, hvs⟩ : ∃ vs, bindFields eng fields nv = .ok vs := by
            cases hx : bindFields eng fields nv with
            | ok vs => exact ⟨vs, rfl⟩
            | error u =>
                rw [hx] at hbf
                exact absurd hbf (by simp [Except.isOk, Except.toBool])
          simp [hvs]

/-- C3, counterexample: for the constant match tree `{message: "test"}`
and the event `{message: "no"}` the compiled predicate returns `false`,
yet the binder — which for constant fields simply returns the literals
without consulting the event — returns the fully-populated, well-formed
binding `{message: 'test'}`.  The claimed equivalence "predicate true
iff binder returns a well-formed binding" therefore fails right to
left. -/
theorem c3_counterexample :
    evalMatch noMatchEngine (.mObj [("message", .mStr "test")])
      (pure (.jObj [("message", .jStr "no")])) = .ok false
    ∧ evalBinder noMatchEngine (.mObj [("message", .mStr "test")])
        (pure (.jObj [("message", .jStr "no")])) =
      .ok (.jObj [("message", .jStr "test")]) :=
  ⟨rfl, rfl⟩

/-- C3, amended: only the left-to-right direction holds — whenever the
compiled predicate returns `true` on an event, the compiled binder
returns a well-formed binding (it never throws and never produces a
partial object).  The converse fails: for constant fields the binder
returns the literals regardless of the event, so a well-formed binding
can be produced while the predicate is `false`. -/
theorem c3_amended (eng : RegexEngine) (t : MTree) (nv : JSResult JValue)
    (h : evalMatch eng t nv = .ok true) :
    (evalBinder eng t nv).isOk = true := by
  cases t with
  | mObj fields =>
      exact c3_aux eng (sizeOf (MTree.mObj fields)) (.mObj fields)
        (Nat.le_refl _) nv h _ rfl
  | mStr s =>
      cases hbc : bindContrib eng (.mStr s) nv with
      | none =>
          rw [show evalBinder eng (.mStr s) nv = .ok (.jObj []) by
            simp [evalBinder, hbc]]
          rfl
      | some e =>
          have he : e.isOk = true :=
            c3_aux eng (sizeOf (MTree.mStr s)) (.mStr s) (Nat.le_refl _) nv h e hbc
          obtain ⟨v, hv⟩ : ∃ v, e = .ok v := by
            cases hx : e with
            | ok v => exact ⟨v, rfl⟩
            | error u =>
                rw [hx] at he
                exact absurd he (by simp [Except.isOk, Except.toBool])
          rw [show evalBinder eng (.mStr s) nv = .ok (.jObj [("undefined", v)]) by
            simp [evalBinder, hbc, hv]]
          rfl
  | mNum m =>
      rw [show evalBinder eng (.mNum m) nv = .ok (.jObj [("undefined", .jNum m)])
        from rfl]
      rfl
  | mBool b =>
      rw [show evalBinder eng (.mBool b) nv = .ok (.jObj [("undefined", .jBool b)])
        from rfl]
      rfl
  | mArr items =>
      rw [show evalBinder eng (.mArr items) nv = .ok (.jObj []) from rfl]
      rfl

/-- C3, witness for the amended theorem: on the matching event the
binder produces a well-formed binding. -/
theorem c3_amended_witness :
    (evalBinder noMatchEngine (.mObj [("message", .mStr "test")])
      (pure (.jObj [("message", .jStr "test")]))).isOk = true :=
  c3_amended noMatchEngine (.mObj [("message", .mStr "test")])
    (pure (.jObj [("message", .jStr "test")])) rfl


end ChangeProp
